import Mathlib

/-!
Verification development for the cpp_uvm phase/objection runtime.

Shallow embedding of:
* `mailbox<T>` from `src/c++/base/uvm_globals.h` (inline bodies in the header),
* `uvm_queue<T>::remove` from `src/c++/base/uvm_queue.h` (inline body),
* the objection tracker and the phase engine, whose member bodies are not in
  the repository snapshot (only declarations in `uvm_objection.h` /
  `uvm_phase.h` are present); those parts are modelled from the spec, as
  marked on each definition.
-/

set_option maxHeartbeats 1000000

namespace CppUvm

/-! ## Mailbox (uvm_globals.h, lines 307-392)

State of `mailbox<T>`: `queue` is the `std::queue<T>` (front = head of the
list, push appends at the back), `bound` the `int bound` constructor
argument, `running` the shutdown flag cleared by the destructor. -/

structure Mailbox (T : Type) where
  queue : List T
  bound : Int
  running : Bool

/-- The C++ comparison `queue.size() < bound` converts the `int` operand to
`size_t` (64-bit, two's complement). -/
def sizeT (i : Int) : Nat := (i % (2 : Int) ^ 64).toNat

/-- The predicate of `put`'s condition-variable wait:
`queue.size() < bound || bound == 0`.  `put` proceeds exactly when this holds
and blocks while it is false. -/
def putReady {T : Type} (m : Mailbox T) : Prop :=
  m.queue.length < sizeT m.bound ∨ m.bound = 0

/-- `put` blocks while its wait predicate is false. -/
def putBlocked {T : Type} (m : Mailbox T) : Prop := ¬ putReady m

/-- The predicate of `get`/`peek`'s wait: `!queue.empty() || !running`. -/
def getReady {T : Type} (m : Mailbox T) : Prop :=
  m.queue ≠ [] ∨ m.running = false

/-- `get` blocks while its wait predicate is false. -/
def getBlocked {T : Type} (m : Mailbox T) : Prop := ¬ getReady m

/-- `mailbox<T>::try_put` (uvm_globals.h lines 327-336): if
`queue.size() < bound || bound == 0` push the item and return `true`,
otherwise return `false` with the queue untouched. -/
def try_put {T : Type} (m : Mailbox T) (x : T) : Bool × Mailbox T :=
  if m.queue.length < sizeT m.bound ∨ m.bound = 0 then
    (true, { m with queue := m.queue ++ [x] })
  else
    (false, m)

/-- `mailbox<T>::try_get` (uvm_globals.h lines 349-359): if the queue is
non-empty, read the front, pop it, return `true`; otherwise return `false`.
The first component is the C++ return value, the second the value written to
the output parameter (`none` = the output parameter is not assigned). -/
def try_get {T : Type} (m : Mailbox T) : Bool × Option T × Mailbox T :=
  match m.queue with
  | [] => (false, none, m)
  | x :: rest => (true, some x, { m with queue := rest })

/-- `mailbox<T>::get` (uvm_globals.h lines 339-346), evaluated at a state
where its wait predicate holds (the wait has returned).  After the wait the
code does `if (!running && queue.empty()) return;` — returning without
assigning the output parameter (modelled as `none`) — otherwise it assigns
the front and pops. -/
def mget {T : Type} (m : Mailbox T) : Option T × Mailbox T :=
  if !m.running && m.queue.isEmpty then (none, m)
  else
    match m.queue with
    | [] => (none, m)
    | x :: rest => (some x, { m with queue := rest })

/-- `mailbox<T>::peek` (uvm_globals.h lines 362-367), evaluated at a state
where its wait predicate holds: `if (!running && queue.empty()) return;`
(no assignment, modelled as `none`), otherwise assigns the front without
popping. -/
def mpeek {T : Type} (m : Mailbox T) : Option T × Mailbox T :=
  if !m.running && m.queue.isEmpty then (none, m)
  else
    match m.queue with
    | [] => (none, m)
    | x :: _ => (some x, m)

/-! ## uvm_queue (uvm_queue.h, lines 110-122)

`uvm_queue<T>::remove(int index = -1)`:
if `index >= size() || index < -1` issue a `QUEUEDEL` warning and ignore the
request; else if `index == -1` clear the whole vector; else erase element
`index`.  The Bool result records whether the warning was issued. -/

def uvm_queue_remove {T : Type} (q : List T) (index : Int) : List T × Bool :=
  if (q.length : Int) ≤ index ∨ index < -1 then
    (q, true)
  else if index = -1 then
    ([], false)
  else
    (q.eraseIdx index.toNat, false)

/-! ## Objection tracker counts

`uvm_objection.h` declares `raise_objection` / `drop_objection` and the maps
`m_source_count` / `m_total_count`, but the member bodies are not part of the
repository snapshot, so the counting protocol is modelled from the spec
(section 4.4).  An object is identified by its path from the hierarchy root:
the root is `[]` and the ancestors of an object are exactly the proper
prefixes of its path.  `src` is `m_source_count`, `tot` is `m_total_count`
(both default to 0, as absent map entries), `support` records the objects
that ever appeared as the source of a raise or drop, and `errors` counts
issued error reports. -/

structure ObjectionState where
  src : List Nat → Int
  tot : List Nat → Int
  support : List (List Nat)
  errors : Nat

def objectionInit : ObjectionState :=
  { src := fun _ => 0, tot := fun _ => 0, support := [], errors := 0 }

def addSupport (sup : List (List Nat)) (p : List Nat) : List (List Nat) :=
  if p ∈ sup then sup else p :: sup

/-- Modelled from the spec: the body of `uvm_objection::raise_objection` /
`m_raise` is missing from the snapshot (declaration only, uvm_objection.h
line 82).  Section 4.4: increments `sourceCount[object]` by `count` and, for
the object and every hierarchical ancestor up to the root, increments
`totalCount` by `count`. -/
def raise_objection (s : ObjectionState) (obj : List Nat) (count : Nat) : ObjectionState where
  src := fun p => if p = obj then s.src p + count else s.src p
  tot := fun p => if p.isPrefixOf obj then s.tot p + count else s.tot p
  support := addSupport s.support obj
  errors := s.errors

/-- Modelled from the spec: the body of `uvm_objection::drop_objection` /
`m_drop` is missing from the snapshot (declaration only, uvm_objection.h
line 83).  Section 4.4: decrements `sourceCount[object]`, clamped at zero
with an error report if the drop would go negative, and propagates the
(clamped) decrement to the `totalCount` of the object and all its
ancestors. -/
def drop_objection (s : ObjectionState) (obj : List Nat) (count : Nat) : ObjectionState where
  src := fun p => if p = obj then s.src p - min (count : Int) (s.src obj) else s.src p
  tot := fun p =>
    if p.isPrefixOf obj then s.tot p - min (count : Int) (s.src obj) else s.tot p
  support := addSupport s.support obj
  errors := s.errors + (if s.src obj < (count : Int) then 1 else 0)

/-- A raise or drop call on the tracker. -/
inductive ObjOp where
  | raise (obj : List Nat) (count : Nat)
  | drop (obj : List Nat) (count : Nat)

def objApply (s : ObjectionState) : ObjOp → ObjectionState
  | ObjOp.raise o c => raise_objection s o c
  | ObjOp.drop o c => drop_objection s o c

/-- The tracker state after a sequence of raise/drop calls from a fresh
tracker. -/
def objRun (ops : List ObjOp) : ObjectionState := ops.foldl objApply objectionInit

/-- Sum of `f` over the members of `sup` lying at or beneath node `q` in the
hierarchy (those whose path extends `q`). -/
def sumBeneath (f : List Nat → Int) (sup : List (List Nat)) (q : List Nat) : Int :=
  (sup.map fun p => if q.isPrefixOf p then f p else 0).sum

/-- The tracker invariant: source counts are non-negative and zero off the
support, the support has no duplicates, and every total count equals the sum
of the source counts beneath that node. -/
def ObjectionInv (s : ObjectionState) : Prop :=
  (∀ p, 0 ≤ s.src p)
  ∧ (∀ p, p ∉ s.support → s.src p = 0)
  ∧ s.support.Nodup
  ∧ (∀ q, s.tot q = sumBeneath s.src s.support q)

/-! ## Drain-time and all_dropped notification

`uvm_objection.h` declares `set_drain_time`, `m_drain_time`, `m_draining`
and the `all_dropped` callback, but the member bodies are missing from the
snapshot, so the drain protocol is modelled from the spec (section 4.4):
when the root total reaches zero the tracker enters draining for `drainTime`
time units; a raise during draining cancels the drain; if the timer elapses
the tracker fires `all_dropped` at every level, bottom layers before the
root, and signals phase-done.  With a zero drain time the firing happens
synchronously inside the drop. -/

/-- The chain of hierarchy levels from the root down to an object: all the
prefixes of its path, shortest first. -/
def levelsTopDown : List Nat → List (List Nat)
  | [] => [[]]
  | x :: xs => [] :: (levelsTopDown xs).map (fun p => x :: p)

/-- The same chain ordered bottom-up: the object itself first, the root
last — the order in which `all_dropped` fires across levels. -/
def levelsBottomUp (p : List Nat) : List (List Nat) := (levelsTopDown p).reverse

/-- Modelled from the spec: drain bookkeeping of the objection tracker
(fields `m_drain_time` / `m_draining` declared in uvm_objection.h lines
112-113, bodies missing).  `total` is the root total count, `fired` the log
of `all_dropped` notifications (one entry per hierarchy level, in firing
order), `pending` the source object of the drop that started the current
drain. -/
structure DrainState where
  total : Int
  drainTime : Nat
  draining : Bool
  timer : Nat
  pending : List Nat
  fired : List (List Nat)
  phaseDone : Bool

def drainInit (d : Nat) : DrainState :=
  { total := 0, drainTime := d, draining := false, timer := 0,
    pending := [], fired := [], phaseDone := false }

/-- Fire `all_dropped` for the drop sourced at `obj`: one notification per
hierarchy level, bottom layers first, the root last; the phase-done
condition is signalled and the drain ends. -/
def fireAllDropped (s : DrainState) (obj : List Nat) : DrainState :=
  { s with draining := false, timer := 0,
           fired := s.fired ++ levelsBottomUp obj, phaseDone := true }

/-- Modelled from the spec: a raise adds to the total; any raise arriving
during draining cancels the drain and returns the tracker to normal
operation. -/
def drainRaise (s : DrainState) (c : Nat) : DrainState :=
  { s with total := s.total + c, draining := false, timer := 0 }

/-- Modelled from the spec: a drop subtracts from the total (never below
zero); when the root total reaches zero the tracker enters draining with a
timer of `drainTime`, and with a zero drain time it fires `all_dropped`
synchronously inside the drop. -/
def drainDrop (s : DrainState) (obj : List Nat) (c : Nat) : DrainState :=
  let t2 : Int := max 0 (s.total - c)
  if t2 = 0 then
    if s.drainTime = 0 then
      fireAllDropped { s with total := t2 } obj
    else
      { s with total := t2, draining := true, timer := s.drainTime, pending := obj }
  else
    { s with total := t2 }

/-- Modelled from the spec: one time unit passes.  A draining tracker whose
timer elapses fires `all_dropped`; otherwise the timer counts down; a
tracker that is not draining is unaffected. -/
def drainTick (s : DrainState) : DrainState :=
  if s.draining then
    if s.timer ≤ 1 then fireAllDropped s s.pending
    else { s with timer := s.timer - 1 }
  else s

/-- An event at the tracker: a raise or drop call, or a unit of time. -/
inductive DrainOp where
  | raise (obj : List Nat) (c : Nat)
  | drop (obj : List Nat) (c : Nat)
  | tick

def drainStep (s : DrainState) : DrainOp → DrainState
  | DrainOp.raise _ c => drainRaise s c
  | DrainOp.drop o c => drainDrop s o c
  | DrainOp.tick => drainTick s

def drainRun (s : DrainState) (ops : List DrainOp) : DrainState := ops.foldl drainStep s

/-- A list of `k` time units. -/
def drainTicks (k : Nat) : List DrainOp := List.replicate k DrainOp.tick

/-! ## Phase node state machine

The execution states of a phase node, from `uvm_phase_state` in
`uvm_object_globals.h` lines 475-484. -/

inductive PhaseState where
  | Dormant
  | Scheduled
  | Syncing
  | Started
  | Executing
  | ReadyToEnd
  | Ended
  | Cleanup
  | Done
  | Jumping
deriving DecidableEq

/-- The successor of each state in the normal (jump-free) lifecycle
`Dormant, Scheduled, Syncing, Started, Executing, ReadyToEnd, Ended,
Cleanup, Done` of spec section 4.1; `Done` is terminal. -/
def nextState : PhaseState → PhaseState
  | PhaseState.Dormant => PhaseState.Scheduled
  | PhaseState.Scheduled => PhaseState.Syncing
  | PhaseState.Syncing => PhaseState.Started
  | PhaseState.Started => PhaseState.Executing
  | PhaseState.Executing => PhaseState.ReadyToEnd
  | PhaseState.ReadyToEnd => PhaseState.Ended
  | PhaseState.Ended => PhaseState.Cleanup
  | PhaseState.Cleanup => PhaseState.Done
  | PhaseState.Done => PhaseState.Done
  | PhaseState.Jumping => PhaseState.Jumping

/-- Pointwise update of a node-state assignment. -/
def updState (s : Nat → PhaseState) (i : Nat) (v : PhaseState) : Nat → PhaseState :=
  fun j => if j = i then v else s j

/-- Modelled from the spec: the executor driver loop and the predecessor
wait `uvm_phase::m_wait_for_pred` (declared at uvm_phase.h line 479; the
body and `m_run_phases` / `execute_phase` bodies are missing from the
snapshot).  Section 4.1: a node only leaves `Dormant` once all its
predecessors are `Done`; afterwards the executor advances it through the
state sequence.  Jumps are outside this relation (the claim excepts them).
Nodes are numbered; `preds` gives the predecessor edges. -/
inductive ExecStep (preds : Nat → List Nat) : (Nat → PhaseState) → (Nat → PhaseState) → Prop where
  | start (s : Nat → PhaseState) (i : Nat) (hDorm : s i = PhaseState.Dormant)
      (hPreds : ∀ p ∈ preds i, s p = PhaseState.Done) :
      ExecStep preds s (updState s i PhaseState.Scheduled)
  | advance (s : Nat → PhaseState) (i : Nat) (h1 : s i ≠ PhaseState.Dormant)
      (h2 : s i ≠ PhaseState.Done) :
      ExecStep preds s (updState s i (nextState (s i)))

/-- At schedule start every node is Dormant. -/
def execInit : Nat → PhaseState := fun _ => PhaseState.Dormant

/-- States the executor can reach from the all-Dormant start. -/
def ExecReachable (preds : Nat → List Nat) (s : Nat → PhaseState) : Prop :=
  Relation.ReflTransGen (ExecStep preds) execInit s

/-- The two-node linear schedule: node 0 is A, node 1 is B, A precedes B. -/
def twoNodePreds : Nat → List Nat := fun i => if i = 1 then [0] else []

/-- A demo run of the two-node schedule: node 0 walks the full lifecycle to
Done, then node 1 is scheduled. -/
def demo1 : Nat → PhaseState := updState execInit 0 PhaseState.Scheduled

def demo2 : Nat → PhaseState := updState demo1 0 PhaseState.Syncing

def demo3 : Nat → PhaseState := updState demo2 0 PhaseState.Started

def demo4 : Nat → PhaseState := updState demo3 0 PhaseState.Executing

def demo5 : Nat → PhaseState := updState demo4 0 PhaseState.ReadyToEnd

def demo6 : Nat → PhaseState := updState demo5 0 PhaseState.Ended

def demo7 : Nat → PhaseState := updState demo6 0 PhaseState.Cleanup

def demo8 : Nat → PhaseState := updState demo7 0 PhaseState.Done

def demo9 : Nat → PhaseState := updState demo8 1 PhaseState.Scheduled

/-! ## Phase graph and jump -/

/-- A schedule graph: its node set, successor edges, per-node execution
state and run count, and the node currently executing (`uvm_phase.h`:
`m_successors`, `m_state`, `m_run_count`). -/
structure PhaseGraph where
  nodes : List Nat
  succs : Nat → List Nat
  state : Nat → PhaseState
  runCount : Nat → Int
  current : Nat

/-- Fuel-bounded reachability along successor edges. -/
def reachB (g : PhaseGraph) : Nat → Nat → Nat → Bool
  | 0, a, b => a == b
  | fuel+1, a, b => a == b || (g.succs a).any (fun m => reachB g fuel m b)

def graphFuel (g : PhaseGraph) : Nat := g.nodes.length

/-- The nodes strictly between `cur` and `tgt` along successor edges
(excluding both endpoints). -/
def strictlyBetween (g : PhaseGraph) (cur tgt n : Nat) : Bool :=
  decide (n ∈ g.nodes) && decide (n ≠ cur) && decide (n ≠ tgt)
    && reachB g (graphFuel g) cur n && reachB g (graphFuel g) n tgt

/-- Modelled from the spec: `uvm_phase::jump` (declared at uvm_phase.h line
412; the body and the `clear` / `clear_successors` bodies are missing from
the snapshot).  Section 4.3: a local jump resets the nodes strictly between
the current node and the target (exclusive of the target) back to `Dormant`
and makes the target the next node to execute; run counts and edges are
untouched at jump time. -/
def jump (g : PhaseGraph) (tgt : Nat) : PhaseGraph :=
  { g with
      state := fun n =>
        if strictlyBetween g g.current tgt n then PhaseState.Dormant else g.state n,
      current := tgt }

/-! ## ReadyToEnd polling -/

/-- The iteration ceiling of the ReadyToEnd loop, from the initializer of
`uvm_phase::max_ready_to_end_iter` at uvm_phase.h line 429. -/
def max_ready_to_end_iter : Nat := 20

structure ReadyToEndResult where
  iters : Nat
  warned : Bool
  finalState : PhaseState

/-- Modelled from the spec: the ReadyToEnd polling loop of
`uvm_phase::execute_phase` (body missing from the snapshot; only the
ceiling member is in the header).  Section 4.1: `ReadyToEnd` is a bounded
number of polling iterations during which components may raise a fresh
objection (`fresh k` says whether one is raised in iteration `k`) to delay
termination; exceeding the ceiling is not fatal — it forces `Ended` and
logs a warning.  The first argument of the recursion is the iteration
counter, the second the remaining budget. -/
def readyToEndLoop (fresh : Nat → Bool) : Nat → Nat → ReadyToEndResult
  | iter, 0 => { iters := iter, warned := true, finalState := PhaseState.Ended }
  | iter, budget+1 =>
    if fresh iter then readyToEndLoop fresh (iter+1) budget
    else { iters := iter, warned := false, finalState := PhaseState.Ended }

/-- Run the ReadyToEnd polling phase with the given iteration ceiling. -/
def runReadyToEnd (fresh : Nat → Bool) (ceiling : Nat) : ReadyToEndResult :=
  readyToEndLoop fresh 0 ceiling

end CppUvm

namespace CppUvm

/-- Claim C8: put blocks only while the mailbox is bounded (bound > 0) and
full; get blocks only while the queue is empty; try_put succeeds and enqueues
exactly when the mailbox is unbounded or not full, and fails leaving the
queue unchanged otherwise; try_get succeeds and dequeues the front exactly
when the queue is non-empty, and fails leaving the mailbox unchanged
otherwise.  The bound is non-negative (bounded/unbounded constructor use) and
within the C++ int range. -/
theorem mailbox_blocking_and_try_semantics {T : Type}
    (m : Mailbox T) (x : T) (hb : 0 ≤ m.bound) (hbr : m.bound < 2 ^ 31) :
    (putBlocked m ↔ (0 < m.bound ∧ m.bound ≤ (m.queue.length : Int)))
    ∧ (getBlocked m → m.queue = [])
    ∧ ((try_put m x).1 = true ↔ (m.bound = 0 ∨ (m.queue.length : Int) < m.bound))
    ∧ ((try_put m x).1 = true → (try_put m x).2.queue = m.queue ++ [x])
    ∧ ((try_put m x).1 = false → (try_put m x).2 = m)
    ∧ ((try_get m).1 = true ↔ m.queue ≠ [])
    ∧ ((try_get m).1 = true →
        (try_get m).2.1 = m.queue.head? ∧ (try_get m).2.2.queue = m.queue.tail)
    ∧ ((try_get m).1 = false → (try_get m).2.2 = m) := by
  have hsz : (sizeT m.bound : Int) = m.bound := by
    unfold sizeT
    rw [Int.emod_eq_of_lt hb (by omega)]
    exact Int.toNat_of_nonneg hb
  have hkey : m.queue.length < sizeT m.bound ↔ (m.queue.length : Int) < m.bound := by
    omega
  refine ⟨?_, ?_, ?_, ?_, ?_, ?_, ?_, ?_⟩
  · unfold putBlocked putReady
    rw [hkey]
    omega
  · unfold getBlocked getReady
    tauto
  · by_cases hc : m.queue.length < sizeT m.bound ∨ m.bound = 0
    · simp only [try_put, if_pos hc]
      rw [hkey] at hc
      tauto
    · simp only [try_put, if_neg hc]
      rw [hkey] at hc
      simp only [Bool.false_eq_true, false_iff]
      tauto
  · by_cases hc : m.queue.length < sizeT m.bound ∨ m.bound = 0
    · simp [try_put, if_pos hc]
    · simp [try_put, if_neg hc]
  · by_cases hc : m.queue.length < sizeT m.bound ∨ m.bound = 0
    · simp [try_put, if_pos hc]
    · simp [try_put, if_neg hc]
  · cases hq : m.queue with
    | nil => simp [try_get, hq]
    | cons a rest => simp [try_get, hq]
  · cases hq : m.queue with
    | nil => simp [try_get, hq]
    | cons a rest => simp [try_get, hq]
  · cases hq : m.queue with
    | nil => simp [try_get, hq]
    | cons a rest => simp [try_get, hq]

/-- Claim C8 witness: a bounded mailbox of bound 2 holding one item. -/
theorem mailbox_blocking_and_try_semantics_witness :
    ((0 : Int) ≤ 2 ∧ (2 : Int) < 2 ^ 31)
    ∧ ((putBlocked (Mailbox.mk [5] 2 true : Mailbox Nat) ↔
        (0 < (2 : Int) ∧ (2 : Int) ≤ (([5] : List Nat).length : Int)))
    ∧ (getBlocked (Mailbox.mk [5] 2 true : Mailbox Nat) → ([5] : List Nat) = [])
    ∧ ((try_put (Mailbox.mk [5] 2 true : Mailbox Nat) 7).1 = true ↔
        ((2 : Int) = 0 ∨ ((([5] : List Nat).length : Int) < 2)))
    ∧ ((try_put (Mailbox.mk [5] 2 true : Mailbox Nat) 7).1 = true →
        (try_put (Mailbox.mk [5] 2 true : Mailbox Nat) 7).2.queue = [5] ++ [7])
    ∧ ((try_put (Mailbox.mk [5] 2 true : Mailbox Nat) 7).1 = false →
        (try_put (Mailbox.mk [5] 2 true : Mailbox Nat) 7).2 = Mailbox.mk [5] 2 true)
    ∧ ((try_get (Mailbox.mk [5] 2 true : Mailbox Nat)).1 = true ↔ ([5] : List Nat) ≠ [])
    ∧ ((try_get (Mailbox.mk [5] 2 true : Mailbox Nat)).1 = true →
        (try_get (Mailbox.mk [5] 2 true : Mailbox Nat)).2.1 = ([5] : List Nat).head? ∧
        (try_get (Mailbox.mk [5] 2 true : Mailbox Nat)).2.2.queue = ([5] : List Nat).tail)
    ∧ ((try_get (Mailbox.mk [5] 2 true : Mailbox Nat)).1 = false →
        (try_get (Mailbox.mk [5] 2 true : Mailbox Nat)).2.2 = Mailbox.mk [5] 2 true)) :=
  ⟨⟨by norm_num, by norm_num⟩,
   mailbox_blocking_and_try_semantics (Mailbox.mk [5] 2 true) 7
     (by norm_num) (by norm_num)⟩

/-- Claim C9: on a mailbox whose destructor has cleared `running` and whose
queue is empty, `get` and `peek` return without assigning the output
parameter (result `none`) and without any other indication: the mailbox state
is returned unchanged. -/
theorem mailbox_shutdown_get_peek_no_assign {T : Type} (m : Mailbox T)
    (hr : m.running = false) (hq : m.queue = []) :
    mget m = (none, m) ∧ mpeek m = (none, m) := by
  constructor
  · simp [mget, hr, hq]
  · simp [mpeek, hr, hq]

/-- Claim C9 witness: a shut-down empty mailbox. -/
theorem mailbox_shutdown_get_peek_no_assign_witness :
    mget (Mailbox.mk ([] : List Nat) 0 false) = (none, Mailbox.mk ([] : List Nat) 0 false)
    ∧ mpeek (Mailbox.mk ([] : List Nat) 0 false) = (none, Mailbox.mk ([] : List Nat) 0 false) :=
  mailbox_shutdown_get_peek_no_assign (Mailbox.mk ([] : List Nat) 0 false) rfl rfl

/-- Claim C10: `uvm_queue::remove` with the default index `-1` clears the
whole queue; `remove(i)` with `0 <= i < size` removes exactly element `i`
(the list becomes the part before `i` followed by the part after `i`) without
a warning; and any index `>= size` or `< -1` produces a warning and leaves
the queue unchanged. -/
theorem uvm_queue_remove_semantics {T : Type} (q : List T) (i : Int)
    (h0 : 0 ≤ i) (hlt : i < (q.length : Int)) :
    uvm_queue_remove q (-1) = ([], false)
    ∧ uvm_queue_remove q i = (q.take i.toNat ++ q.drop (i.toNat + 1), false)
    ∧ (∀ j : Int, ((q.length : Int) ≤ j ∨ j < -1) → uvm_queue_remove q j = (q, true)) := by
  refine ⟨?_, ?_, ?_⟩
  · have h1 : ¬((q.length : Int) ≤ -1 ∨ (-1 : Int) < -1) := by omega
    rw [uvm_queue_remove, if_neg h1, if_pos rfl]
  · have h1 : ¬((q.length : Int) ≤ i ∨ i < -1) := by omega
    have h2 : i ≠ -1 := by omega
    simp [uvm_queue_remove, h1, h2, List.eraseIdx_eq_take_drop_succ]
  · intro j hj
    simp [uvm_queue_remove, hj]

/-- Claim C10 witness: the three-element queue [10, 20, 30] with index 1. -/
theorem uvm_queue_remove_semantics_witness :
    ((0 : Int) ≤ 1 ∧ (1 : Int) < (([10, 20, 30] : List Nat).length : Int))
    ∧ (uvm_queue_remove ([10, 20, 30] : List Nat) (-1) = ([], false)
    ∧ uvm_queue_remove ([10, 20, 30] : List Nat) 1 =
        (([10, 20, 30] : List Nat).take (1 : Int).toNat ++
         ([10, 20, 30] : List Nat).drop ((1 : Int).toNat + 1), false)
    ∧ (∀ j : Int, ((([10, 20, 30] : List Nat).length : Int) ≤ j ∨ j < -1) →
        uvm_queue_remove ([10, 20, 30] : List Nat) j = ([10, 20, 30], true))) :=
  ⟨⟨by norm_num, by norm_num⟩,
   uvm_queue_remove_semantics ([10, 20, 30] : List Nat) 1 (by norm_num) (by norm_num)⟩

theorem sumBeneath_congr (f g : List Nat → Int) (sup : List (List Nat)) (q : List Nat)
    (h : ∀ p ∈ sup, f p = g p) : sumBeneath f sup q = sumBeneath g sup q := by
  induction sup with
  | nil => rfl
  | cons a t ih =>
    unfold sumBeneath
    simp only [List.map_cons, List.sum_cons]
    rw [h a (List.mem_cons_self a t)]
    have ht := ih (fun p hp => h p (List.mem_cons_of_mem a hp))
    unfold sumBeneath at ht
    rw [ht]

theorem sumBeneath_cons (f : List Nat → Int) (a : List Nat) (t : List (List Nat))
    (q : List Nat) :
    sumBeneath f (a :: t) q = (if q.isPrefixOf a then f a else 0) + sumBeneath f t q := by
  unfold sumBeneath
  simp only [List.map_cons, List.sum_cons]

theorem sumBeneath_update (f : List Nat → Int) (sup : List (List Nat))
    (q p0 : List Nat) (d : Int) (hnd : sup.Nodup) (hmem : p0 ∈ sup) :
    sumBeneath (fun p => if p = p0 then f p + d else f p) sup q
      = sumBeneath f sup q + (if q.isPrefixOf p0 then d else 0) := by
  induction sup with
  | nil => simp at hmem
  | cons a t ih =>
    rw [sumBeneath_cons, sumBeneath_cons]
    by_cases hap : a = p0
    · subst hap
      have hnot : a ∉ t := (List.nodup_cons.mp hnd).1
      have htail : sumBeneath (fun p => if p = a then f p + d else f p) t q
          = sumBeneath f t q := by
        apply sumBeneath_congr
        intro p hp
        have : p ≠ a := fun hcontra => hnot (hcontra ▸ hp)
        simp [this]
      rw [htail]
      by_cases hq : q.isPrefixOf a
      · simp only [if_pos rfl, if_pos hq, if_true]; ring
      · simp only [if_pos rfl, if_neg hq, if_true]; ring
    · have hmem2 : p0 ∈ t := by
        rcases List.mem_cons.mp hmem with h | h
        · exact absurd h.symm hap
        · exact h
      have hnd2 : t.Nodup := (List.nodup_cons.mp hnd).2
      rw [ih hnd2 hmem2]
      have hhead : (if a = p0 then f a + d else f a) = f a := by simp [hap]
      simp only [hhead]
      ring

theorem sumBeneath_nonneg (f : List Nat → Int) (sup : List (List Nat)) (q : List Nat)
    (h : ∀ p, 0 ≤ f p) : 0 ≤ sumBeneath f sup q := by
  unfold sumBeneath
  apply List.sum_nonneg
  intro x hx
  rcases List.mem_map.mp hx with ⟨p, _, rfl⟩
  by_cases hq : q.isPrefixOf p
  · simpa [hq] using h p
  · simp [hq]

theorem raise_preserves_inv (s : ObjectionState) (obj : List Nat) (c : Nat)
    (h : ObjectionInv s) : ObjectionInv (raise_objection s obj c) := by
  obtain ⟨h1, h2, h3, h4⟩ := h
  refine ⟨?_, ?_, ?_, ?_⟩
  · intro p
    by_cases hp : p = obj
    · have := h1 p
      simp only [raise_objection, if_pos hp]
      omega
    · simpa [raise_objection, hp] using h1 p
  · intro p hp
    simp only [raise_objection, addSupport] at hp ⊢
    by_cases hm : obj ∈ s.support
    · rw [if_pos hm] at hp
      have hpo : p ≠ obj := fun hcontra => hp (hcontra ▸ hm)
      simp [hpo, h2 p hp]
    · rw [if_neg hm] at hp
      have hpo : p ≠ obj := fun hcontra => hp (by simp [hcontra])
      have hpt : p ∉ s.support := fun hcontra => hp (by simp [hcontra])
      simp [hpo, h2 p hpt]
  · simp only [raise_objection, addSupport]
    by_cases hm : obj ∈ s.support
    · simpa [hm] using h3
    · simp only [if_neg hm]
      exact List.nodup_cons.mpr ⟨hm, h3⟩
  · intro q
    simp only [raise_objection, addSupport]
    by_cases hm : obj ∈ s.support
    · rw [if_pos hm]
      rw [sumBeneath_update s.src s.support q obj (c : Int) h3 hm]
      rw [← h4 q]
      by_cases hq : q.isPrefixOf obj
      · simp [hq]
      · simp [hq]
    · rw [if_neg hm, sumBeneath_cons]
      have htail : sumBeneath (fun p => if p = obj then s.src p + (c : Int) else s.src p)
          s.support q = sumBeneath s.src s.support q := by
        apply sumBeneath_congr
        intro p hp
        have : p ≠ obj := fun hcontra => hm (hcontra ▸ hp)
        simp [this]
      rw [htail, ← h4 q]
      have hzero : s.src obj = 0 := h2 obj hm
      simp only [if_pos rfl, hzero]
      by_cases hq : q.isPrefixOf obj
      · simp [hq]; ring
      · simp [hq]

theorem drop_preserves_inv (s : ObjectionState) (obj : List Nat) (c : Nat)
    (h : ObjectionInv s) : ObjectionInv (drop_objection s obj c) := by
  obtain ⟨h1, h2, h3, h4⟩ := h
  have heff : 0 ≤ min (c : Int) (s.src obj) := le_min (by omega) (h1 obj)
  have heff2 : min (c : Int) (s.src obj) ≤ s.src obj := min_le_right _ _
  refine ⟨?_, ?_, ?_, ?_⟩
  · intro p
    by_cases hp : p = obj
    · subst hp
      simp only [drop_objection, if_pos rfl]
      omega
    · simpa [drop_objection, hp] using h1 p
  · intro p hp
    simp only [drop_objection, addSupport] at hp ⊢
    by_cases hm : obj ∈ s.support
    · rw [if_pos hm] at hp
      have hpo : p ≠ obj := fun hcontra => hp (hcontra ▸ hm)
      simp [hpo, h2 p hp]
    · rw [if_neg hm] at hp
      have hpo : p ≠ obj := fun hcontra => hp (by simp [hcontra])
      have hpt : p ∉ s.support := fun hcontra => hp (by simp [hcontra])
      simp [hpo, h2 p hpt]
  · simp only [drop_objection, addSupport]
    by_cases hm : obj ∈ s.support
    · simpa [hm] using h3
    · simp only [if_neg hm]
      exact List.nodup_cons.mpr ⟨hm, h3⟩
  · intro q
    simp only [drop_objection, addSupport]
    have hconv : sumBeneath (fun p => if p = obj then s.src p - min (c : Int) (s.src obj)
        else s.src p) s.support q
        = sumBeneath (fun p => if p = obj then s.src p + (-(min (c : Int) (s.src obj)))
        else s.src p) s.support q := by
      apply sumBeneath_congr
      intro p _
      by_cases hp : p = obj <;> simp [hp, sub_eq_add_neg]
    by_cases hm : obj ∈ s.support
    · rw [if_pos hm, hconv]
      rw [sumBeneath_update s.src s.support q obj (-(min (c : Int) (s.src obj))) h3 hm]
      rw [← h4 q]
      by_cases hq : q.isPrefixOf obj
      · simp [hq]; ring
      · simp [hq]
    · have hzero : s.src obj = 0 := h2 obj hm
      rw [if_neg hm, sumBeneath_cons, hconv]
      have htail : sumBeneath (fun p => if p = obj then s.src p + (-(min (c : Int) (s.src obj)))
          else s.src p) s.support q = sumBeneath s.src s.support q := by
        apply sumBeneath_congr
        intro p hp
        have : p ≠ obj := fun hcontra => hm (hcontra ▸ hp)
        simp [this]
      rw [htail, ← h4 q]
      simp only [if_pos rfl, hzero]
      by_cases hq : q.isPrefixOf obj
      · simp [hq]
      · simp [hq]

theorem objInv_foldl (ops : List ObjOp) :
    ∀ s : ObjectionState, ObjectionInv s → ObjectionInv (ops.foldl objApply s) := by
  induction ops with
  | nil => intro s h; exact h
  | cons op t ih =>
    intro s h
    rcases op with ⟨o, c⟩ | ⟨o, c⟩
    · exact ih _ (raise_preserves_inv s o c h)
    · exact ih _ (drop_preserves_inv s o c h)

theorem objectionInit_inv : ObjectionInv objectionInit := by
  refine ⟨fun p => le_refl 0, fun p _ => rfl, List.nodup_nil, fun q => rfl⟩

/-- Claim C1: along any sequence of raise and drop calls on a fresh tracker,
all per-source counts and all per-total counts stay non-negative, every
total count equals the sum of un-dropped raises beneath that node, and the
total count at the hierarchy root equals the sum over all objects of their
raised-minus-dropped (source) counts. -/
theorem objection_counts_invariant (ops : List ObjOp) :
    (∀ p, 0 ≤ (objRun ops).src p)
    ∧ (∀ q, 0 ≤ (objRun ops).tot q)
    ∧ (∀ q, (objRun ops).tot q = sumBeneath (objRun ops).src (objRun ops).support q)
    ∧ (objRun ops).tot [] = ((objRun ops).support.map (objRun ops).src).sum := by
  have hinv : ObjectionInv (objRun ops) := objInv_foldl ops objectionInit objectionInit_inv
  obtain ⟨h1, _, _, h4⟩ := hinv
  refine ⟨h1, ?_, h4, ?_⟩
  · intro q
    rw [h4 q]
    exact sumBeneath_nonneg _ _ _ h1
  · rw [h4 []]
    unfold sumBeneath
    congr 1
    apply List.map_congr_left
    intro p _
    simp [List.isPrefixOf_nil_left]

/-- Claim C2: a drop on an object whose source count is zero (an over-drop)
clamps the source count at zero instead of going negative and issues an
error report, and execution continues (the operation is total). -/
theorem over_drop_clamps_and_reports (s : ObjectionState) (obj : List Nat) (c : Nat)
    (h0 : s.src obj = 0) (hc : 0 < c) :
    (drop_objection s obj c).src obj = 0
    ∧ s.errors < (drop_objection s obj c).errors := by
  constructor
  · simp only [drop_objection, if_pos rfl, h0]
    omega
  · simp only [drop_objection]
    rw [h0, if_pos (by omega : (0 : Int) < (c : Int))]
    omega

/-- Claim C2 witness: raise(O,1) then drop(O,1) leaves source count 0; the
second drop is an over-drop that keeps the count at 0 and reports an
error. -/
theorem over_drop_clamps_and_reports_witness :
    ((objRun [ObjOp.raise [0] 1, ObjOp.drop [0] 1]).src [0] = 0 ∧ 0 < 1)
    ∧ ((drop_objection (objRun [ObjOp.raise [0] 1, ObjOp.drop [0] 1]) [0] 1).src [0] = 0
    ∧ (objRun [ObjOp.raise [0] 1, ObjOp.drop [0] 1]).errors
        < (drop_objection (objRun [ObjOp.raise [0] 1, ObjOp.drop [0] 1]) [0] 1).errors) :=
  ⟨⟨by decide, by decide⟩,
   over_drop_clamps_and_reports (objRun [ObjOp.raise [0] 1, ObjOp.drop [0] 1]) [0] 1
     (by decide) (by decide)⟩

theorem levelsTopDown_headq (p : List Nat) : (levelsTopDown p).head? = some [] := by
  cases p <;> rfl

theorem count_nil_levelsTopDown (p : List Nat) : (levelsTopDown p).count [] = 1 := by
  induction p with
  | nil => rfl
  | cons x xs ih =>
    rw [levelsTopDown, List.count_cons]
    have hz : (List.map (fun p => x :: p) (levelsTopDown xs)).count [] = 0 := by
      rw [List.count_eq_zero]
      simp [List.mem_map]
    simp [hz]

theorem count_nil_levelsBottomUp (p : List Nat) : (levelsBottomUp p).count [] = 1 := by
  unfold levelsBottomUp
  rw [List.count_reverse]
  exact count_nil_levelsTopDown p

theorem getLastq_levelsBottomUp (p : List Nat) : (levelsBottomUp p).getLast? = some [] := by
  unfold levelsBottomUp
  rw [List.getLast?_reverse]
  exact levelsTopDown_headq p

/-- Claim C3: with drain time 0, raise(obj,1) followed by drop(obj,1) fires
all_dropped exactly once, synchronously inside the drop (no time step is
taken): the log holds exactly one firing chain, with one notification per
hierarchy level, the lower levels before the root, the root notification
occurring exactly once and last, and phase-done is signalled. -/
theorem drain_zero_time_fires_once (obj : List Nat) :
    (drainRun (drainInit 0) [DrainOp.raise obj 1, DrainOp.drop obj 1]).fired
        = levelsBottomUp obj
    ∧ (drainRun (drainInit 0) [DrainOp.raise obj 1, DrainOp.drop obj 1]).fired.count [] = 1
    ∧ (drainRun (drainInit 0) [DrainOp.raise obj 1, DrainOp.drop obj 1]).fired.getLast?
        = some []
    ∧ (drainRun (drainInit 0) [DrainOp.raise obj 1, DrainOp.drop obj 1]).phaseDone = true := by
  have h : drainRun (drainInit 0) [DrainOp.raise obj 1, DrainOp.drop obj 1]
      = { total := 0, drainTime := 0, draining := false, timer := 0, pending := [],
          fired := levelsBottomUp obj, phaseDone := true } := by
    unfold drainRun
    simp only [List.foldl, drainStep]
    unfold drainRaise drainInit drainDrop fireAllDropped
    norm_num
  rw [h]
  exact ⟨rfl, count_nil_levelsBottomUp obj, getLastq_levelsBottomUp obj, rfl⟩

theorem drainTicks_hold (k : Nat) :
    ∀ s : DrainState, s.draining = true → k < s.timer →
      drainRun s (drainTicks k) = { s with timer := s.timer - k } := by
  induction k with
  | zero =>
    intro s _ _
    cases s
    simp [drainTicks, drainRun]
  | succ n ih =>
    intro s h1 h2
    have hstep : drainTick s = { s with timer := s.timer - 1 } := by
      unfold drainTick
      rw [if_pos h1, if_neg (by omega : ¬ s.timer ≤ 1)]
    have hrun : drainRun s (drainTicks (n + 1))
        = drainRun { s with timer := s.timer - 1 } (drainTicks n) := by
      unfold drainTicks
      rw [List.replicate_succ]
      unfold drainRun
      simp only [List.foldl_cons, drainStep]
      rw [hstep]
    rw [hrun, ih { s with timer := s.timer - 1 } h1 (by simpa using by omega : n < s.timer - 1)]
    cases s
    simp
    omega

theorem drain_timer_elapse (s : DrainState) (h1 : s.draining = true) (h2 : 0 < s.timer) :
    drainRun s (drainTicks s.timer)
      = { s with draining := false, timer := 0,
                 fired := s.fired ++ levelsBottomUp s.pending, phaseDone := true } := by
  have hsplit : drainTicks s.timer = drainTicks (s.timer - 1) ++ [DrainOp.tick] := by
    unfold drainTicks
    rw [← List.replicate_succ']
    congr 1
    omega
  rw [hsplit]
  unfold drainRun
  rw [List.foldl_append]
  have hpre : List.foldl drainStep s (drainTicks (s.timer - 1))
      = { s with timer := s.timer - (s.timer - 1) } :=
    drainTicks_hold (s.timer - 1) s h1 (by omega)
  rw [hpre]
  simp only [List.foldl_cons, List.foldl_nil, drainStep]
  unfold drainTick
  rw [if_pos (by exact h1), if_pos (by simp; omega)]
  unfold fireAllDropped
  cases s
  simp

/-- Claim C4: with a positive drain time, raise(obj,1); drop(obj,1); then a
re-raise before the drain timer elapses cancels the drain, so all_dropped
never fires; a subsequent drop(obj,1) re-enters draining and, once the drain
time elapses, all_dropped fires and phase-done is signalled. -/
theorem reraise_during_drain_cancels (obj : List Nat) (d t : Nat)
    (hd : 0 < d) (ht : t < d) :
    (drainRun (drainInit d)
        ([DrainOp.raise obj 1, DrainOp.drop obj 1] ++ drainTicks t
          ++ [DrainOp.raise obj 1])).fired = []
    ∧ (drainRun (drainInit d)
        (([DrainOp.raise obj 1, DrainOp.drop obj 1] ++ drainTicks t
          ++ [DrainOp.raise obj 1]) ++ ([DrainOp.drop obj 1] ++ drainTicks d))).fired
        = levelsBottomUp obj
    ∧ (drainRun (drainInit d)
        (([DrainOp.raise obj 1, DrainOp.drop obj 1] ++ drainTicks t
          ++ [DrainOp.raise obj 1]) ++ ([DrainOp.drop obj 1] ++ drainTicks d))).phaseDone
        = true := by
  have e1 : drainRun (drainInit d) [DrainOp.raise obj 1, DrainOp.drop obj 1]
      = { total := 0, drainTime := d, draining := true, timer := d, pending := obj,
          fired := [], phaseDone := false } := by
    unfold drainRun
    simp only [List.foldl, drainStep]
    unfold drainRaise drainInit drainDrop
    rw [if_pos (by norm_num), if_neg (by omega : ¬ d = 0)]
    norm_num
  have e2 : drainRun (drainInit d) ([DrainOp.raise obj 1, DrainOp.drop obj 1] ++ drainTicks t)
      = { total := 0, drainTime := d, draining := true, timer := d - t, pending := obj,
          fired := [], phaseDone := false } := by
    unfold drainRun
    rw [List.foldl_append]
    have := e1
    unfold drainRun at this
    rw [this]
    exact drainTicks_hold t _ rfl (by simpa using ht)
  have e3 : drainRun (drainInit d)
      ([DrainOp.raise obj 1, DrainOp.drop obj 1] ++ drainTicks t ++ [DrainOp.raise obj 1])
      = { total := 1, drainTime := d, draining := false, timer := 0, pending := obj,
          fired := [], phaseDone := false } := by
    unfold drainRun
    rw [List.foldl_append]
    have := e2
    unfold drainRun at this
    rw [this]
    simp only [List.foldl_cons, List.foldl_nil, drainStep]
    unfold drainRaise
    norm_num
  have e4 : drainRun (drainInit d)
      (([DrainOp.raise obj 1, DrainOp.drop obj 1] ++ drainTicks t ++ [DrainOp.raise obj 1])
        ++ [DrainOp.drop obj 1])
      = { total := 0, drainTime := d, draining := true, timer := d, pending := obj,
          fired := [], phaseDone := false } := by
    unfold drainRun
    rw [List.foldl_append]
    have := e3
    unfold drainRun at this
    rw [this]
    simp only [List.foldl_cons, List.foldl_nil, drainStep]
    unfold drainDrop
    rw [if_pos (by norm_num), if_neg (by omega : ¬ d = 0)]
    norm_num
  have e5 : drainRun (drainInit d)
      ((([DrainOp.raise obj 1, DrainOp.drop obj 1] ++ drainTicks t ++ [DrainOp.raise obj 1])
        ++ [DrainOp.drop obj 1]) ++ drainTicks d)
      = { total := 0, drainTime := d, draining := false, timer := 0, pending := obj,
          fired := levelsBottomUp obj, phaseDone := true } := by
    unfold drainRun
    rw [List.foldl_append]
    have := e4
    unfold drainRun at this
    rw [this]
    have := drain_timer_elapse
      { total := 0, drainTime := d, draining := true, timer := d, pending := obj,
        fired := [], phaseDone := false } rfl (by simpa using hd)
    unfold drainRun at this
    simpa using this
  refine ⟨?_, ?_, ?_⟩
  · rw [e3]
  · have hassoc : (([DrainOp.raise obj 1, DrainOp.drop obj 1] ++ drainTicks t
        ++ [DrainOp.raise obj 1]) ++ ([DrainOp.drop obj 1] ++ drainTicks d))
        = ((([DrainOp.raise obj 1, DrainOp.drop obj 1] ++ drainTicks t
        ++ [DrainOp.raise obj 1]) ++ [DrainOp.drop obj 1]) ++ drainTicks d) := by
      simp [List.append_assoc]
    rw [hassoc, e5]
  · have hassoc : (([DrainOp.raise obj 1, DrainOp.drop obj 1] ++ drainTicks t
        ++ [DrainOp.raise obj 1]) ++ ([DrainOp.drop obj 1] ++ drainTicks d))
        = ((([DrainOp.raise obj 1, DrainOp.drop obj 1] ++ drainTicks t
        ++ [DrainOp.raise obj 1]) ++ [DrainOp.drop obj 1]) ++ drainTicks d) := by
      simp [List.append_assoc]
    rw [hassoc, e5]

/-- Claim C4 witness: drain time 2, one elapsed tick before the re-raise. -/
theorem reraise_during_drain_cancels_witness :
    (0 < 2 ∧ 1 < 2)
    ∧ ((drainRun (drainInit 2)
        ([DrainOp.raise [0] 1, DrainOp.drop [0] 1] ++ drainTicks 1
          ++ [DrainOp.raise [0] 1])).fired = []
    ∧ (drainRun (drainInit 2)
        (([DrainOp.raise [0] 1, DrainOp.drop [0] 1] ++ drainTicks 1
          ++ [DrainOp.raise [0] 1]) ++ ([DrainOp.drop [0] 1] ++ drainTicks 2))).fired
        = levelsBottomUp [0]
    ∧ (drainRun (drainInit 2)
        (([DrainOp.raise [0] 1, DrainOp.drop [0] 1] ++ drainTicks 1
          ++ [DrainOp.raise [0] 1]) ++ ([DrainOp.drop [0] 1] ++ drainTicks 2))).phaseDone
        = true) :=
  ⟨⟨by decide, by decide⟩, reraise_during_drain_cancels [0] 2 1 (by decide) (by decide)⟩

theorem nextState_ne_dormant (x : PhaseState) : nextState x ≠ PhaseState.Dormant := by
  cases x <;> simp [nextState]

theorem execStep_preserves (preds : Nat → List Nat) {a b : Nat → PhaseState}
    (hstep : ExecStep preds a b)
    (ih : ∀ i, a i ≠ PhaseState.Dormant → ∀ p ∈ preds i, a p = PhaseState.Done) :
    ∀ i, b i ≠ PhaseState.Dormant → ∀ p ∈ preds i, b p = PhaseState.Done := by
  cases hstep with
  | start j hD hP =>
    intro i hi p hp
    by_cases hij : i = j
    · subst hij
      have hdone : a p = PhaseState.Done := hP p hp
      have hpj : p ≠ i := by
        intro hcontra
        rw [hcontra, hD] at hdone
        cases hdone
      unfold updState
      rw [if_neg hpj]
      exact hdone
    · have hi2 : a i ≠ PhaseState.Dormant := by
        unfold updState at hi
        rwa [if_neg hij] at hi
      have hdone : a p = PhaseState.Done := ih i hi2 p hp
      have hpj : p ≠ j := by
        intro hcontra
        rw [hcontra, hD] at hdone
        cases hdone
      unfold updState
      rw [if_neg hpj]
      exact hdone
  | advance j h1 h2 =>
    intro i hi p hp
    have hi2 : a i ≠ PhaseState.Dormant := by
      by_cases hij : i = j
      · subst hij
        exact h1
      · unfold updState at hi
        rwa [if_neg hij] at hi
    have hdone : a p = PhaseState.Done := ih i hi2 p hp
    have hpj : p ≠ j := by
      intro hcontra
      rw [hcontra] at hdone
      exact h2 hdone
    unfold updState
    rw [if_neg hpj]
    exact hdone

/-- Claim C5: in any executor run (without jumps), a node that has left
Dormant has all its predecessors Done; in particular, in the two-node
schedule A before B, B stays Dormant until A is Done. -/
theorem successor_starts_after_preds_done (preds : Nat → List Nat) (s : Nat → PhaseState)
    (h : ExecReachable preds s) :
    ∀ i, s i ≠ PhaseState.Dormant → ∀ p ∈ preds i, s p = PhaseState.Done := by
  induction h with
  | refl =>
    intro i hi
    exact absurd rfl hi
  | tail _ hstep ih =>
    exact execStep_preserves preds hstep ih

theorem demo9_reachable : ExecReachable twoNodePreds demo9 := by
  have e1 : ExecStep twoNodePreds execInit demo1 :=
    ExecStep.start execInit 0 rfl (by decide)
  have e2 : ExecStep twoNodePreds demo1 demo2 :=
    ExecStep.advance demo1 0 (by decide) (by decide)
  have e3 : ExecStep twoNodePreds demo2 demo3 :=
    ExecStep.advance demo2 0 (by decide) (by decide)
  have e4 : ExecStep twoNodePreds demo3 demo4 :=
    ExecStep.advance demo3 0 (by decide) (by decide)
  have e5 : ExecStep twoNodePreds demo4 demo5 :=
    ExecStep.advance demo4 0 (by decide) (by decide)
  have e6 : ExecStep twoNodePreds demo5 demo6 :=
    ExecStep.advance demo5 0 (by decide) (by decide)
  have e7 : ExecStep twoNodePreds demo6 demo7 :=
    ExecStep.advance demo6 0 (by decide) (by decide)
  have e8 : ExecStep twoNodePreds demo7 demo8 :=
    ExecStep.advance demo7 0 (by decide) (by decide)
  have e9 : ExecStep twoNodePreds demo8 demo9 :=
    ExecStep.start demo8 1 (by decide) (by decide)
  exact Relation.ReflTransGen.tail
    (Relation.ReflTransGen.tail
      (Relation.ReflTransGen.tail
        (Relation.ReflTransGen.tail
          (Relation.ReflTransGen.tail
            (Relation.ReflTransGen.tail
              (Relation.ReflTransGen.tail
                (Relation.ReflTransGen.tail (Relation.ReflTransGen.single e1) e2) e3) e4)
            e5) e6) e7) e8) e9

/-- Claim C5 witness: in the demo run of the two-node schedule, node B has
left Dormant only at a point where node A is Done. -/
theorem successor_starts_after_preds_done_witness :
    (demo9 1 ≠ PhaseState.Dormant ∧ (0 ∈ twoNodePreds 1))
    ∧ demo9 0 = PhaseState.Done :=
  ⟨⟨by decide, by decide⟩,
   successor_starts_after_preds_done twoNodePreds demo9 demo9_reachable 1 (by decide)
     0 (by decide)⟩

/-- Claim C6: jumping to the node currently executing leaves the whole
graph state unchanged — no node state, run count, edge or the current
pointer is modified.  The hypothesis is the schedule DAG invariant
restricted to the current node: no other node lies on a successor-edge
cycle through it. -/
theorem jump_to_current_is_noop (g : PhaseGraph)
    (hacyc : ∀ n ∈ g.nodes, n ≠ g.current →
      ¬(reachB g (graphFuel g) g.current n = true
        ∧ reachB g (graphFuel g) n g.current = true)) :
    jump g g.current = g := by
  have hcond : ∀ n, strictlyBetween g g.current g.current n = false := by
    intro n
    unfold strictlyBetween
    by_cases hmem : n ∈ g.nodes
    · by_cases hcur : n = g.current
      · simp [hcur]
      · have hnot := hacyc n hmem hcur
        rcases Bool.eq_false_or_eq_true (reachB g (graphFuel g) g.current n) with hr | hr
        · have hr2 : reachB g (graphFuel g) n g.current = false := by
            rcases Bool.eq_false_or_eq_true (reachB g (graphFuel g) n g.current) with h2 | h2
            · exact absurd ⟨hr, h2⟩ hnot
            · exact h2
          simp [hr, hr2]
        · simp [hr]
    · simp [hmem]
  have hstate : (fun n =>
      if strictlyBetween g g.current g.current n then PhaseState.Dormant else g.state n)
      = g.state := by
    funext n
    rw [hcond n]
    simp
  unfold jump
  rw [hstate]

/-- Claim C6 witness: a two-node acyclic schedule, executing at node 0. -/
theorem jump_to_current_is_noop_witness :
    jump (PhaseGraph.mk [0, 1] (fun n => if n = 0 then [1] else [])
      (fun _ => PhaseState.Executing) (fun _ => 0) 0) 0
    = PhaseGraph.mk [0, 1] (fun n => if n = 0 then [1] else [])
      (fun _ => PhaseState.Executing) (fun _ => 0) 0 :=
  jump_to_current_is_noop
    (PhaseGraph.mk [0, 1] (fun n => if n = 0 then [1] else [])
      (fun _ => PhaseState.Executing) (fun _ => 0) 0)
    (by decide)

theorem readyToEndLoop_le (fresh : Nat → Bool) :
    ∀ budget iter, (readyToEndLoop fresh iter budget).iters ≤ iter + budget
      ∧ (readyToEndLoop fresh iter budget).finalState = PhaseState.Ended := by
  intro budget
  induction budget with
  | zero =>
    intro iter
    exact ⟨Nat.le_refl _, rfl⟩
  | succ n ih =>
    intro iter
    unfold readyToEndLoop
    by_cases hf : fresh iter = true
    · rw [if_pos hf]
      refine ⟨?_, (ih (iter + 1)).2⟩
      have := (ih (iter + 1)).1
      omega
    · rw [if_neg hf]
      refine ⟨?_, rfl⟩
      show iter ≤ iter + (n + 1)
      omega

theorem readyToEndLoop_all_fresh (fresh : Nat → Bool) (hall : ∀ i, fresh i = true) :
    ∀ budget iter, readyToEndLoop fresh iter budget
      = { iters := iter + budget, warned := true, finalState := PhaseState.Ended } := by
  intro budget
  induction budget with
  | zero =>
    intro iter
    rfl
  | succ n ih =>
    intro iter
    unfold readyToEndLoop
    rw [if_pos (hall iter), ih (iter + 1)]
    have : iter + 1 + n = iter + (n + 1) := by omega
    rw [this]

/-- Claim C7: the ReadyToEnd polling loop runs at most `ceiling` iterations
and always exits to Ended; if components keep raising fresh objections in
every iteration, the loop stops exactly at the ceiling with a warning and
the phase is still forced into Ended; the ceiling member defaults to 20 in
the code. -/
theorem ready_to_end_bounded (fresh : Nat → Bool) (ceiling : Nat) :
    (runReadyToEnd fresh ceiling).iters ≤ ceiling
    ∧ (runReadyToEnd fresh ceiling).finalState = PhaseState.Ended
    ∧ ((∀ i, fresh i = true) →
        runReadyToEnd fresh ceiling
          = { iters := ceiling, warned := true, finalState := PhaseState.Ended })
    ∧ max_ready_to_end_iter = 20 := by
  refine ⟨?_, ?_, ?_, rfl⟩
  · have := (readyToEndLoop_le fresh ceiling 0).1
    unfold runReadyToEnd
    omega
  · exact (readyToEndLoop_le fresh ceiling 0).2
  · intro hall
    unfold runReadyToEnd
    rw [readyToEndLoop_all_fresh fresh hall ceiling 0]
    simp

/-- Claim C7 witness: components raising a fresh objection in every
iteration against the default ceiling of 20. -/
theorem ready_to_end_bounded_witness :
    (runReadyToEnd (fun _ : Nat => true) max_ready_to_end_iter).iters ≤ max_ready_to_end_iter
    ∧ (runReadyToEnd (fun _ : Nat => true) max_ready_to_end_iter).finalState
        = PhaseState.Ended
    ∧ ((∀ i : Nat, (fun _ : Nat => true) i = true) →
        runReadyToEnd (fun _ : Nat => true) max_ready_to_end_iter
          = { iters := max_ready_to_end_iter, warned := true,
              finalState := PhaseState.Ended })
    ∧ max_ready_to_end_iter = 20 :=
  ready_to_end_bounded (fun _ : Nat => true) max_ready_to_end_iter

end CppUvm
